import Mathlib

/-!
Verification of the cubic-calendar generation engine.

A shallow embedding of `src/cubic_calendar/core.py` (the final variant of the
engine, per the design notes): the season/holiday block model, the canonical
day-sequence generator `_calc_canonical_days`, the localizer `_localize`,
`find_day`, and `Calendar.__post_init__`.

Modelling conventions:
* Gregorian dates are integers: the number of days since the canonical epoch
  `date(2024, 9, 22)` (so `CANONICAL_EPOCH = 0`); `date + timedelta(days=k)`
  becomes `date + k`.
* Instants (`datetime` values) are integers on an abstract timeline; all the
  code ever does with them is compare them, so any linearly ordered embedding
  is faithful.
* The external sunrise oracle `astral.sun.sunrise` is an explicit function
  parameter `sunrise : Int → Int` from a date to the sunrise instant of that
  date (one such parameter for the canonical location/timezone, one for the
  observer), and `datetime.weekday()` applied to a sunrise instant is a second
  explicit parameter `wd : Int → Weekday` (the weekday label depends on the
  timezone the instant is rendered in, hence one such function per location).
* The external table `SOLAR_EVENTS` is an explicit list parameter; a
  `SolarEvent` carries its instant `time` and the date `date` of that instant
  (Python's `solar_event.time.date()`).
* The Python generator is modelled with explicit fuel; running out of fuel is
  the artificial outcome `GenErr.fuelExhausted`, distinct from both clean
  termination and the `assert`/unpacking failures of the code.
* `assert` failures and the failing single-element unpacking
  `[solar_event] = solar_events` abort the whole computation (the exception
  propagates out of `list(...)`), so generation returns `Except`.
* In-place mutation of the `days` list in `_localize` is modelled by explicit
  state passing of the whole list through the loop.
-/

namespace CubicCalendar

/-- Day-number encoding of `CANONICAL_EPOCH = date(2024, 9, 22)`: Gregorian
dates are modelled as signed day offsets from this date. -/
def CANONICAL_EPOCH : Int := 0

/-- The `class Season(Enum)` of core.py (values 0..3). -/
inductive Season
  | GREENTIDE
  | SUNCREST
  | EMBERWANE
  | FROSTFALL
deriving DecidableEq, Repr

/-- The `Season.value`. -/
def Season.value : Season → Nat
  | Season.GREENTIDE => 0
  | Season.SUNCREST => 1
  | Season.EMBERWANE => 2
  | Season.FROSTFALL => 3

/-- The `Season(v)` for `v` in 0..3 (the constructor is only ever applied to
values reduced mod 4 in the source; the catch-all case is unreachable there). -/
def Season.ofValue : Nat → Season
  | 0 => Season.GREENTIDE
  | 1 => Season.SUNCREST
  | 2 => Season.EMBERWANE
  | 3 => Season.FROSTFALL
  | _ => Season.GREENTIDE

/-- The `Season.next`: `Season((self.value + 1) % 4)`. -/
def Season.next (s : Season) : Season := Season.ofValue ((s.value + 1) % 4)

/-- The `class Holiday(Enum)` of core.py (values 0..3). -/
inductive Holiday
  | SUMMER_SOLSTICE
  | AUTUMNAL_EQUINOX
  | WINTER_SOLSTICE
  | VERNAL_EQUINOX
deriving DecidableEq, Repr

/-- The `Holiday.value`. -/
def Holiday.value : Holiday → Nat
  | Holiday.SUMMER_SOLSTICE => 0
  | Holiday.AUTUMNAL_EQUINOX => 1
  | Holiday.WINTER_SOLSTICE => 2
  | Holiday.VERNAL_EQUINOX => 3

/-- The `Holiday(v)` for `v` in 0..3 (catch-all unreachable in the source). -/
def Holiday.ofValue : Nat → Holiday
  | 0 => Holiday.SUMMER_SOLSTICE
  | 1 => Holiday.AUTUMNAL_EQUINOX
  | 2 => Holiday.WINTER_SOLSTICE
  | 3 => Holiday.VERNAL_EQUINOX
  | _ => Holiday.SUMMER_SOLSTICE

/-- The `type Block = Season | Holiday` as an explicit tagged union. -/
inductive Block
  | season (s : Season)
  | holiday (h : Holiday)
deriving DecidableEq, Repr

/-- The `Block.isSeason`: does the block carry a `Season` tag. -/
def Block.isSeason : Block → Bool
  | Block.season _ => true
  | Block.holiday _ => false

/-- The `Block.isHoliday`: does the block carry a `Holiday` tag. -/
def Block.isHoliday : Block → Bool
  | Block.season _ => false
  | Block.holiday _ => true

/-- The `next_block` of core.py lines 45-51:
`Holiday h ↦ Season((h.value + 1) % 4)`, `Season s ↦ Holiday(s.value)`. -/
def next_block : Block → Block
  | Block.holiday h => Block.season (Season.ofValue ((h.value + 1) % 4))
  | Block.season s => Block.holiday (Holiday.ofValue s.value)

/-- The `class Weekday(Enum)` of core.py with Python `datetime.weekday` numbering
(Monday = 0, ..., Saturday = 5, Sunday = 6). -/
inductive Weekday
  | SUNDAY
  | MONDAY
  | TUESDAY
  | WEDNESDAY
  | THURSDAY
  | FRIDAY
  | SATURDAY
deriving DecidableEq, Repr

/-- The `Weekday(v)` for `v` in 0..6 (the source only applies it to values reduced
mod 7, so the catch-all for values above 6 is unreachable there). -/
def Weekday.ofValue : Nat → Weekday
  | 0 => Weekday.MONDAY
  | 1 => Weekday.TUESDAY
  | 2 => Weekday.WEDNESDAY
  | 3 => Weekday.THURSDAY
  | 4 => Weekday.FRIDAY
  | 5 => Weekday.SATURDAY
  | _ => Weekday.SUNDAY

/-- The `DAYS_IN_WEEK = 7`. -/
def DAYS_IN_WEEK : Nat := 7

/-- The `WEEKS_IN_SEASON = 12`. -/
def WEEKS_IN_SEASON : Nat := 12

/-- The `DAYS_IN_SEASON = DAYS_IN_WEEK * WEEKS_IN_SEASON = 84`. -/
def DAYS_IN_SEASON : Nat := DAYS_IN_WEEK * WEEKS_IN_SEASON

/-- The `DAYS_IN_BLOCK = 7` (minimum holiday length). -/
def DAYS_IN_BLOCK : Nat := 7

/-- The `DAYS_IN_LEAP_BLOCK = DAYS_IN_BLOCK * 2 = 14`. -/
def DAYS_IN_LEAP_BLOCK : Nat := DAYS_IN_BLOCK * 2

/-- The `Day` dataclass of core.py.  `end` is a Lean keyword, so the field is
called `end_`.  Note well: unlike the historical `calendar.py` variant, this
`Day` has **no** `season` field - the season lives inside `block`. -/
structure Day where
  start : Int
  end_ : Int
  year : Nat
  block : Block
  day_of_block : Nat
  days_since_epoch : Nat
deriving DecidableEq, Repr

instance : Inhabited Day :=
  ⟨⟨0, 0, 0, Block.season Season.GREENTIDE, 0, 0⟩⟩

/-- Placeholder used with `List.getD`; all lookups we reason about are
in bounds. -/
def defaultDay : Day := default

/-- The `Day.weekday` property: `Weekday((self.day_of_block + 5) % 7)`. -/
def Day.weekday (d : Day) : Weekday := Weekday.ofValue ((d.day_of_block + 5) % 7)

/-- A solar-event table row: the instant of the event and the Gregorian date
of that instant (`solar_event.time` and `solar_event.time.date()`). -/
structure SolarEvent where
  time : Int
  date : Int
deriving DecidableEq, Repr

/-- The `_end_of_canonical_day(date)` = sunrise at the canonical location on
`date + 1`; parametrised by the canonical sunrise oracle. -/
def end_of_canonical_day (sunrise : Int → Int) (date : Int) : Int :=
  sunrise (date + 1)

/-- The `leap_week_threshold` of core.py line 152:
`_end_of_canonical_day(gregorian_date + timedelta(days=2))`. -/
def leap_week_threshold (sunrise : Int → Int) (gregorian_date : Int) : Int :=
  end_of_canonical_day sunrise (gregorian_date + 2)

/-- The filter predicate of core.py line 148:
`abs(solar_event.time.date() - gregorian_date) <= timedelta(days=14)`. -/
def inSearchWindow (gregorian_date : Int) (e : SolarEvent) : Bool :=
  decide ((e.date - gregorian_date).natAbs ≤ 14)

/-- Failure modes of `_calc_canonical_days` (Python exceptions), plus the
artificial fuel-exhaustion outcome of the bounded model. -/
inductive GenErr
  | epochWeekdayAssert
  | saturdayAssert
  | ambiguousEvents
  | fuelExhausted
deriving DecidableEq, Repr

/-- Outcome of one iteration of the generator loop. -/
inductive StepResult
  | terminate
  | fail (e : GenErr)
  | next (d : Day)
deriving DecidableEq, Repr

/-- The body of the `while True` loop of `_calc_canonical_days`
(core.py lines 143-178), for previous day `day` and the already-incremented
`gregorian_date`: decide whether the sequence ends (`return`), fails
(`assert` / ambiguous unpacking `[solar_event] = solar_events`), or yields the
next `Day`. -/
def calc_canonical_step (sunrise : Int → Int) (events : List SolarEvent)
    (day : Day) (gregorian_date : Int) : StepResult :=
  match day.block with
  | Block.holiday _ =>
    if day.day_of_block = DAYS_IN_BLOCK then
      if day.weekday = Weekday.SATURDAY then
        match events.filter (inSearchWindow gregorian_date) with
        | [] => StepResult.terminate
        | [solar_event] =>
          if leap_week_threshold sunrise gregorian_date < solar_event.time then
            -- insert a leap week
            StepResult.next
              { start := sunrise gregorian_date
                end_ := end_of_canonical_day sunrise gregorian_date
                year := day.year
                block := day.block
                day_of_block := day.day_of_block + 1
                days_since_epoch := day.days_since_epoch + 1 }
          else
            StepResult.next
              { start := sunrise gregorian_date
                end_ := end_of_canonical_day sunrise gregorian_date
                year := if day.block = Block.holiday Holiday.VERNAL_EQUINOX then
                          day.year + 1
                        else day.year
                block := next_block day.block
                day_of_block := 1
                days_since_epoch := day.days_since_epoch + 1 }
        | _ => StepResult.fail GenErr.ambiguousEvents
      else StepResult.fail GenErr.saturdayAssert
    else if day.day_of_block = DAYS_IN_LEAP_BLOCK then
      StepResult.next
        { start := sunrise gregorian_date
          end_ := end_of_canonical_day sunrise gregorian_date
          year := day.year
          block := next_block day.block
          day_of_block := 1
          days_since_epoch := day.days_since_epoch + 1 }
    else
      StepResult.next
        { start := sunrise gregorian_date
          end_ := end_of_canonical_day sunrise gregorian_date
          year := day.year
          block := day.block
          day_of_block := day.day_of_block + 1
          days_since_epoch := day.days_since_epoch + 1 }
  | Block.season _ =>
    if day.day_of_block = DAYS_IN_SEASON then
      StepResult.next
        { start := sunrise gregorian_date
          end_ := end_of_canonical_day sunrise gregorian_date
          year := day.year
          block := next_block day.block
          day_of_block := 1
          days_since_epoch := day.days_since_epoch + 1 }
    else
      StepResult.next
        { start := sunrise gregorian_date
          end_ := end_of_canonical_day sunrise gregorian_date
          year := day.year
          block := day.block
          day_of_block := day.day_of_block + 1
          days_since_epoch := day.days_since_epoch + 1 }

/-- The `while True` loop of `_calc_canonical_days`, run with fuel: returns
the list of days yielded **after** `day` (whose date is `gregorian_date`). -/
def calc_canonical_days_from (sunrise : Int → Int) (events : List SolarEvent) :
    Nat → Day → Int → Except GenErr (List Day)
  | 0, _, _ => Except.error GenErr.fuelExhausted
  | Nat.succ fuel, day, gregorian_date =>
    match calc_canonical_step sunrise events day (gregorian_date + 1) with
    | StepResult.terminate => Except.ok []
    | StepResult.fail e => Except.error e
    | StepResult.next d =>
      match calc_canonical_days_from sunrise events fuel d (gregorian_date + 1) with
      | Except.ok l => Except.ok (d :: l)
      | Except.error e => Except.error e

/-- The first yielded day of `_calc_canonical_days` (core.py lines 133-140). -/
def day_zero (sunrise : Int → Int) : Day :=
  { start := sunrise CANONICAL_EPOCH
    end_ := end_of_canonical_day sunrise CANONICAL_EPOCH
    year := 1
    block := Block.season Season.GREENTIDE
    day_of_block := 1
    days_since_epoch := 0 }

/-- Model of `list(self._calc_canonical_days())`: the epoch weekday `assert`
(core.py line 131), the initial day, then the generation loop. -/
def calc_canonical_days (sunrise : Int → Int) (wd : Int → Weekday)
    (events : List SolarEvent) (fuel : Nat) : Except GenErr (List Day) :=
  if wd (sunrise CANONICAL_EPOCH) = Weekday.SUNDAY then
    match calc_canonical_days_from sunrise events fuel (day_zero sunrise) CANONICAL_EPOCH with
    | Except.ok l => Except.ok (day_zero sunrise :: l)
    | Except.error e => Except.error e
  else Except.error GenErr.epochWeekdayAssert

/-- Failure modes of `_localize` (Python exceptions). -/
inductive LocErr
  | stopIteration
  | attributeError
  | weekdayAssert
  | sundayAssert
  | offsetAssert
deriving DecidableEq, Repr

/-- The `match` of core.py lines 197-205 adjusting the offset by the weekday
of the observer sunrise: Monday ↦ -1, Sunday ↦ 0, Saturday ↦ +1, anything
else hits `assert False` (`none`).  (In core.py the base offset is always 0
when this point is reached: the Northern branch raises before it.) -/
def localizeOffsetAdjust : Weekday → Option Int
  | Weekday.MONDAY => some (-1)
  | Weekday.SUNDAY => some 0
  | Weekday.SATURDAY => some 1
  | _ => none

/-- One iteration of the rebasing loop of `_localize` (core.py lines
209-218), with the in-place mutation of the shared `days` list made explicit:
iteration `i` rewrites `days[offset+i]` in place (boundaries from the
observer's sunrise oracle; when `offset > 0` also the calendrical fields,
copied from the *current* contents of `days[i]`), then continues.  `steps`
counts the remaining iterations (`len(days) - offset` initially).

The rewritten `Day` stored by iteration `i` of the loop: boundaries from
the observer's sunrise oracle; when `offset > 0` every calendrical field is
overwritten too - `year`/`block`/`day_of_block` copied from the current
contents of `days[i]` and `days_since_epoch := i` - so only the two boundary
fields of `days[offset+i]` survive in that case. -/
def localizeBody (sunrise : Int → Int) (offset i : Nat) (gregorian_date : Int)
    (days : List Day) : Day :=
  if 0 < offset then
    { start := sunrise gregorian_date
      end_ := sunrise (gregorian_date + 1)
      year := (days.getD i defaultDay).year
      block := (days.getD i defaultDay).block
      day_of_block := (days.getD i defaultDay).day_of_block
      days_since_epoch := i }
  else
    { days.getD (offset + i) defaultDay with
        start := sunrise gregorian_date
        end_ := sunrise (gregorian_date + 1) }

def localizeGo (sunrise : Int → Int) (offset : Nat) :
    Nat → Nat → Int → List Day → List Day
  | 0, _, _, days => days
  | Nat.succ steps, i, gregorian_date, days =>
    localizeGo sunrise offset steps (i + 1) (gregorian_date + 1)
      (days.set (offset + i) (localizeBody sunrise offset i gregorian_date days))

/-- The rebasing pass of `_localize`: run the loop over `days[offset:]`
(which mutates the shared list in place), and return the rewritten tail -
the days yielded by the generator, i.e. the list with the first `offset`
days dropped. -/
def localizeRebase (sunrise : Int → Int) (offset : Nat) (days : List Day) :
    List Day :=
  (localizeGo sunrise offset (days.length - offset) 0
    (CANONICAL_EPOCH + offset) days).drop offset

/-- Model of `_localize` (core.py lines 190-218), parametrised by the observer's
sunrise oracle and weekday rendering.  `tz_is_canonical` models
`self.timezone == CANONICAL_TIMEZONE`; `northern` models
`self.hemisphere == Hemisphere.NORTHERN`.

The Northern branch evaluates
`next(i for (i, day) in enumerate(days) if day.season == Season.EMBERWANE)`;
core.py's `Day` has no `season` attribute (the field is `block` in this
version), so the first element raises `AttributeError` (`StopIteration`
when `days` is empty). -/
def localize (sunrise : Int → Int) (wd : Int → Weekday)
    (tz_is_canonical : Bool) (northern : Bool) (days : List Day) :
    Except LocErr (List Day) :=
  if tz_is_canonical then Except.ok days
  else if northern then
    match days with
    | [] => Except.error LocErr.stopIteration
    | _ :: _ => Except.error LocErr.attributeError
  else
    match localizeOffsetAdjust (wd (sunrise (CANONICAL_EPOCH + 0))) with
    | none => Except.error LocErr.weekdayAssert
    | some offset =>
      if wd (sunrise (CANONICAL_EPOCH + offset)) = Weekday.SUNDAY then
        if offset < 0 then Except.error LocErr.offsetAssert
        else Except.ok (localizeRebase sunrise offset.toNat days)
      else Except.error LocErr.sundayAssert

/-- Model of `Calendar.find_day`: linear scan for the first day with
`day.start <= time < day.end`. -/
def find_day (days : List Day) (time : Int) : Option Day :=
  days.find? (fun day => decide (day.start ≤ time ∧ time < day.end_))

/-- Failure modes of `Calendar.__post_init__`. -/
inductive CalErr
  | gen (e : GenErr)
  | loc (e : LocErr)
  | emptyDays
deriving DecidableEq, Repr

/-- The finalized calendar: the localized day sequence and its epoch
(`self.days`, `self.epoch = self.days[0]`). -/
structure Calendar where
  days : List Day
  epoch : Day
deriving DecidableEq, Repr

/-- Model of `self.hemisphere = Hemisphere.NORTHERN if self.latitude > 0 else
Hemisphere.SOUTHERN`. -/
def isNorthern (latitude : ℚ) : Bool := decide (0 < latitude)

/-- Model of `Calendar.__post_init__` / `_calc_days`: generate the canonical sequence,
localize it, and take `epoch = days[0]` (an `IndexError` if the sequence is
empty). -/
def mkCalendar (canonSunrise : Int → Int) (canonWd : Int → Weekday)
    (events : List SolarEvent) (fuel : Nat)
    (localSunrise : Int → Int) (localWd : Int → Weekday)
    (latitude : ℚ) (tz_is_canonical : Bool) : Except CalErr Calendar :=
  match calc_canonical_days canonSunrise canonWd events fuel with
  | Except.error e => Except.error (CalErr.gen e)
  | Except.ok cdays =>
    match localize localSunrise localWd tz_is_canonical (isNorthern latitude) cdays with
    | Except.error e => Except.error (CalErr.loc e)
    | Except.ok [] => Except.error CalErr.emptyDays
    | Except.ok (d :: rest) => Except.ok { days := d :: rest, epoch := d }

/-! ## Invariants of the generator -/

/-- Field bounds maintained by the generator: `day_of_block` is 1-based,
at most `DAYS_IN_SEASON` inside a season block and at most
`DAYS_IN_LEAP_BLOCK` inside a holiday block. -/
def InvD (d : Day) : Prop :=
  match d.block with
  | Block.season _ => 1 ≤ d.day_of_block ∧ d.day_of_block ≤ DAYS_IN_SEASON
  | Block.holiday _ => 1 ≤ d.day_of_block ∧ d.day_of_block ≤ DAYS_IN_LEAP_BLOCK

/-- The step relation between two consecutive generated days: within a season
block `day_of_block` increments until exactly `DAYS_IN_SEASON`, then the block
transitions; within a holiday block it increments, except that at
`DAYS_IN_BLOCK` it either increments (leap week) or transitions (with the year
bump exactly on the `VERNAL_EQUINOX` holiday), and at `DAYS_IN_LEAP_BLOCK` it
always transitions. -/
def GoodPair (d d' : Day) : Prop :=
  match d.block with
  | Block.season _ =>
    if d.day_of_block = DAYS_IN_SEASON then
      d'.block = next_block d.block ∧ d'.day_of_block = 1 ∧ d'.year = d.year
    else
      d'.block = d.block ∧ d'.day_of_block = d.day_of_block + 1 ∧ d'.year = d.year
  | Block.holiday _ =>
    if d.day_of_block = DAYS_IN_BLOCK then
      (d'.block = d.block ∧ d'.day_of_block = d.day_of_block + 1 ∧ d'.year = d.year) ∨
      (d'.block = next_block d.block ∧ d'.day_of_block = 1 ∧
        d'.year = if d.block = Block.holiday Holiday.VERNAL_EQUINOX then d.year + 1 else d.year)
    else if d.day_of_block = DAYS_IN_LEAP_BLOCK then
      d'.block = next_block d.block ∧ d'.day_of_block = 1 ∧ d'.year = d.year
    else
      d'.block = d.block ∧ d'.day_of_block = d.day_of_block + 1 ∧ d'.year = d.year

/-- Lower bound on the number of further days the generator must yield before
it can possibly terminate, as a function of the current day. -/
def minSteps (d : Day) : Nat :=
  match d.block with
  | Block.season _ => (DAYS_IN_SEASON - d.day_of_block) + DAYS_IN_BLOCK
  | Block.holiday _ => DAYS_IN_BLOCK - d.day_of_block

/-- Everything the generator loop guarantees about a successfully produced
tail `l` (the days yielded after `day`, whose date is `g`): per-index
boundary/`days_since_epoch` characterisation, the `GoodPair` chain, invariant
propagation, the shape of the last day, and the minimum length. -/
def GenOut (sunrise : Int → Int) (day : Day) (g : Int) (l : List Day) : Prop :=
  (∀ i, i < l.length →
    (l.getD i defaultDay).start = sunrise (g + 1 + i) ∧
    (l.getD i defaultDay).end_ = sunrise (g + 1 + i + 1) ∧
    (l.getD i defaultDay).days_since_epoch = day.days_since_epoch + 1 + i) ∧
  List.Chain' GoodPair (day :: l) ∧
  (InvD day → ∀ d ∈ day :: l, InvD d) ∧
  (((day :: l).getLastD defaultDay).block.isHoliday = true ∧
    ((day :: l).getLastD defaultDay).day_of_block = DAYS_IN_BLOCK) ∧
  minSteps day ≤ l.length

/-- The day the rebasing loop of `_localize` actually stores at position `j`
(for `offset ≤ j < length`): boundaries from the observer's sunrise oracle at
date `CANONICAL_EPOCH + j`, and - when `offset > 0` - the calendrical fields
of the *already rewritten* entry `days[j - offset]`, which unfolds to the
original canonical day at index `(j - offset) % offset`, with
`days_since_epoch = j - offset`.  When `offset = 0` only the boundaries are
rewritten. -/
def rebaseTarget (sunrise : Int → Int) (offset : Nat) (a0 : List Day) (j : Nat) : Day :=
  if 0 < offset then
    { start := sunrise (CANONICAL_EPOCH + j)
      end_ := sunrise (CANONICAL_EPOCH + j + 1)
      year := (a0.getD ((j - offset) % offset) defaultDay).year
      block := (a0.getD ((j - offset) % offset) defaultDay).block
      day_of_block := (a0.getD ((j - offset) % offset) defaultDay).day_of_block
      days_since_epoch := j - offset }
  else
    { a0.getD j defaultDay with
        start := sunrise (CANONICAL_EPOCH + j)
        end_ := sunrise (CANONICAL_EPOCH + j + 1) }

/-- The boundaries of the day list `days` are the values of the sunrise
oracle `f` at consecutive dates starting from `base`. -/
def BoundaryAt (f : Int → Int) (base : Int) (days : List Day) : Prop :=
  ∀ i, i < days.length →
    (days.getD i defaultDay).start = f (base + i) ∧
    (days.getD i defaultDay).end_ = f (base + i + 1)

/-- Strict monotonicity of a sunrise oracle across consecutive dates (the
spec requires the external `SunriseOracle` to be monotonic in the date). -/
def OracleMono (f : Int → Int) : Prop := ∀ d : Int, f d < f (d + 1)

/-! ## Concrete instances used to exercise the model -/

/-- A concrete canonical sunrise oracle for tests: dates and instants share
one timeline, sunrise of date `d` is the instant `d`.  Strictly monotone. -/
def demoSunrise : Int → Int := fun d => d

/-- Weekday rendering for `demoSunrise` instants in the canonical timezone:
the epoch instant `0` renders as Sunday (2024-09-22 is a Sunday). -/
def demoWd : Int → Weekday := fun t => Weekday.ofValue ((t + 6) % 7).toNat

/-- Weekday rendering of the same instants for an observer timezone in which
the epoch sunrise renders as Saturday (exercises the `offset += 1` branch). -/
def demoSaturdayWd : Int → Weekday := fun t => Weekday.ofValue ((t + 5) % 7).toNat

/-- Weekday rendering of the same instants for an observer timezone in which
the epoch sunrise renders as Monday (exercises the `offset -= 1` branch). -/
def demoMondayWd : Int → Weekday := fun t => Weekday.ofValue (t % 7).toNat

/-- Enough fuel for the 91-day generation run with an empty event table. -/
def demoFuel : Nat := 200

/-- The canonical sequence for the demo oracles and an empty event table:
84 Greentide days followed by 7 Summer-Solstice holiday days. -/
def demoCanonicalDays : List Day :=
  (calc_canonical_days demoSunrise demoWd [] demoFuel).toOption.getD []

/-- A calendar built in the canonical timezone (localization passthrough). -/
def demoCal : Calendar :=
  (mkCalendar demoSunrise demoWd [] demoFuel demoSunrise demoWd (-33) true).toOption.getD
    ⟨[], defaultDay⟩

/-- A Southern calendar in a non-canonical timezone whose observer sunrise at
the epoch renders as Saturday, so the localizer uses `offset = 1`. -/
def demoShiftCal : Calendar :=
  (mkCalendar demoSunrise demoWd [] demoFuel demoSunrise demoSaturdayWd (-33) false).toOption.getD
    ⟨[], defaultDay⟩

/-- A holiday-boundary day: Vernal-Equinox holiday at its 7-day minimum. -/
def demoBoundaryDay : Day :=
  { start := 90
    end_ := 91
    year := 1
    block := Block.holiday Holiday.VERNAL_EQUINOX
    day_of_block := 7
    days_since_epoch := 90 }

/-- A single solar event a few days past date 91, after the leap threshold. -/
def demoLateEvent : SolarEvent := ⟨95, 95⟩

/-- Two solar events inside the ±14-day window of date 91. -/
def demoTwoEvents : List SolarEvent := [⟨92, 92⟩, ⟨93, 93⟩]

/-- A short hand-made canonical prefix (three Greentide days) for exercising
the rebasing pass on its own. -/
def threeDays : List Day :=
  [⟨0, 1, 1, Block.season Season.GREENTIDE, 1, 0⟩,
   ⟨1, 2, 1, Block.season Season.GREENTIDE, 2, 1⟩,
   ⟨2, 3, 1, Block.season Season.GREENTIDE, 3, 2⟩]

/-- The localizer's output on `threeDays` for the Saturday-shifted observer. -/
def demoRebased3 : List Day :=
  (localize demoSunrise demoSaturdayWd false false threeDays).toOption.getD []

theorem next_block_season (s : Season) :
    next_block (Block.season s) = Block.holiday (Holiday.ofValue s.value) := rfl

theorem next_block_holiday (h : Holiday) :
    next_block (Block.holiday h) = Block.season (Season.ofValue ((h.value + 1) % 4)) := rfl

theorem next_block_isHoliday (b : Block) (h : b.isSeason = true) :
    (next_block b).isHoliday = true := by
  cases b with
  | season s => rfl
  | holiday hh => simp [Block.isSeason] at h

theorem next_block_isSeason (b : Block) (h : b.isHoliday = true) :
    (next_block b).isSeason = true := by
  cases b with
  | season s => simp [Block.isHoliday] at h
  | holiday hh => cases hh <;> rfl

/-- A day at `day_of_block = DAYS_IN_BLOCK` has weekday Saturday (the internal
`assert` of core.py line 147 can never fire). -/
theorem weekday_at_days_in_block (d : Day) (h : d.day_of_block = DAYS_IN_BLOCK) :
    d.weekday = Weekday.SATURDAY := by
  simp [Day.weekday, h, DAYS_IN_BLOCK, Weekday.ofValue]

/-- Shape of any day produced by the generator step: its boundaries come from
the canonical sunrise oracle at the step's date, and `days_since_epoch`
increments. -/
theorem step_next_shape (sunrise : Int → Int) (events : List SolarEvent)
    (day : Day) (g : Int) (d : Day)
    (h : calc_canonical_step sunrise events day g = StepResult.next d) :
    d.start = sunrise g ∧ d.end_ = sunrise (g + 1) ∧
    d.days_since_epoch = day.days_since_epoch + 1 := by
  unfold calc_canonical_step at h
  rcases hb : day.block with s | hh <;> rw [hb] at h <;>
    (simp only [] at h) <;>
    (repeat' split at h) <;>
    (first
      | (injection h with h; subst h; exact ⟨rfl, rfl, rfl⟩)
      | (cases h))

/-- The generator step realises the `GoodPair` transition relation. -/
theorem step_next_good (sunrise : Int → Int) (events : List SolarEvent)
    (day : Day) (g : Int) (d : Day)
    (h : calc_canonical_step sunrise events day g = StepResult.next d) :
    GoodPair day d := by
  unfold calc_canonical_step at h
  unfold GoodPair
  rcases hb : day.block with s | hh <;>
    (try rw [hb] at h) <;>
    (try rw [hb]) <;>
    simp only [] at h ⊢ <;>
    (repeat' split at h) <;>
    (first
      | (injection h with h; subst h; simp_all)
      | (cases h))

/-- The generator step preserves the field bounds. -/
theorem goodPair_inv (day d : Day) (hinv : InvD day) (hg : GoodPair day d) :
    InvD d := by
  unfold GoodPair at hg
  unfold InvD at hinv ⊢
  rcases hb : day.block with s | hol <;>
    rcases hb2 : d.block with s2 | hol2 <;>
    (try rw [hb] at hinv hg) <;>
    (try rw [hb2]) <;>
    simp only [] at hinv hg ⊢ <;>
    (repeat' split at hg) <;>
    (try rcases hg with hg | hg) <;>
    (obtain ⟨hbl, hdob, hy⟩ := hg) <;>
    (rw [hb2] at hbl) <;>
    simp_all [next_block, Season.value, Holiday.value, Season.ofValue, Holiday.ofValue,
      DAYS_IN_SEASON, DAYS_IN_BLOCK, DAYS_IN_LEAP_BLOCK, DAYS_IN_WEEK, WEEKS_IN_SEASON] <;>
    omega

/-- Across a generator step the termination measure drops by at most one. -/
theorem goodPair_minSteps (day d : Day) (hg : GoodPair day d) :
    minSteps day ≤ minSteps d + 1 := by
  unfold GoodPair at hg
  unfold minSteps
  rcases hb : day.block with s | hol <;>
    rcases hb2 : d.block with s2 | hol2 <;>
    (try rw [hb] at hg) <;>
    (try rw [hb]) <;>
    (try rw [hb2]) <;>
    simp only [] at hg ⊢ <;>
    (repeat' split at hg) <;>
    (try rcases hg with hg | hg) <;>
    (obtain ⟨hbl, hdob, hy⟩ := hg) <;>
    (rw [hb2] at hbl) <;>
    simp_all [next_block, Season.value, Holiday.value, Season.ofValue, Holiday.ofValue,
      DAYS_IN_SEASON, DAYS_IN_BLOCK, DAYS_IN_LEAP_BLOCK, DAYS_IN_WEEK, WEEKS_IN_SEASON] <;>
    omega

/-- The generator step can only signal clean termination from a holiday day at
its minimum length (core.py lines 146-150). -/
theorem step_terminate_inv (sunrise : Int → Int) (events : List SolarEvent)
    (day : Day) (g : Int)
    (h : calc_canonical_step sunrise events day g = StepResult.terminate) :
    day.block.isHoliday = true ∧ day.day_of_block = DAYS_IN_BLOCK := by
  unfold calc_canonical_step at h
  rcases hb : day.block with s | hh <;> rw [hb] at h <;> simp only [] at h <;>
    (repeat' split at h) <;> first
      | (exact ⟨rfl, by assumption⟩)
      | (exact ⟨by rw [hb]; rfl, by assumption⟩)
      | (cases h)

theorem from_ok_spec (sunrise : Int → Int) (events : List SolarEvent) :
    ∀ (fuel : Nat) (day : Day) (g : Int) (l : List Day),
      calc_canonical_days_from sunrise events fuel day g = Except.ok l →
      GenOut sunrise day g l := by
  intro fuel
  induction fuel with
  | zero => intro day g l h; cases h
  | succ fuel ih =>
    intro day g l h
    unfold calc_canonical_days_from at h
    cases hs : calc_canonical_step sunrise events day (g + 1) with
    | terminate =>
      rw [hs] at h
      simp only [] at h
      injection h with h
      subst h
      obtain ⟨hhol, h7⟩ := step_terminate_inv sunrise events day (g + 1) hs
      refine ⟨?_, ?_, ?_, ?_, ?_⟩
      · intro i hi; simp at hi
      · simp
      · intro hinv d hd
        simp at hd
        subst hd
        exact hinv
      · simpa [List.getLastD] using ⟨hhol, h7⟩
      · have hz : minSteps day = 0 := by
          unfold minSteps
          rcases hb : day.block with s | hol
          · rw [hb] at hhol; simp [Block.isHoliday] at hhol
          · simp [h7]
        simp [hz]
    | fail e =>
      rw [hs] at h
      simp only [] at h
      cases h
    | next d =>
      rw [hs] at h
      simp only [] at h
      cases hr : calc_canonical_days_from sunrise events fuel d (g + 1) with
      | error e => rw [hr] at h; cases h
      | ok l' =>
        rw [hr] at h
        injection h with h
        subst h
        obtain ⟨ih1, ih2, ih3, ih4, ih5⟩ := ih d (g + 1) l' hr
        obtain ⟨hst, hen, hdse⟩ := step_next_shape _ _ _ _ _ hs
        have hgood := step_next_good _ _ _ _ _ hs
        refine ⟨?_, ?_, ?_, ?_, ?_⟩
        · intro i hi
          cases i with
          | zero =>
            simp only [List.getD_cons_zero]
            refine ⟨by rw [hst] <;> norm_num, by rw [hen] <;> norm_num,
              by rw [hdse] <;> norm_num⟩
          | succ i =>
            have hi' : i < l'.length := by simpa using hi
            obtain ⟨a1, a2, a3⟩ := ih1 i hi'
            simp only [List.getD_cons_succ]
            refine ⟨?_, ?_, ?_⟩
            · rw [a1]; congr 1; push_cast; ring
            · rw [a2]; congr 1; push_cast; ring
            · rw [a3, hdse]; omega
        · exact List.chain'_cons.mpr ⟨hgood, ih2⟩
        · intro hinv dd hdd
          have hinvd : InvD d := goodPair_inv day d hinv hgood
          rcases List.mem_cons.mp hdd with hdd | hdd
          · subst hdd; exact hinv
          · exact ih3 hinvd dd hdd
        · simpa [List.getLastD] using ih4
        · have h1 := goodPair_minSteps day d hgood
          simp only [List.length_cons]
          omega

/-- The initial day satisfies `InvD`. -/
theorem invD_day_zero (sunrise : Int → Int) : InvD (day_zero sunrise) := by
  unfold InvD day_zero
  norm_num [DAYS_IN_SEASON, DAYS_IN_WEEK, WEEKS_IN_SEASON]

/-- Everything `calc_canonical_days` guarantees about a successfully produced
day list: it starts with `day_zero`, day `i` runs from sunrise of date
`CANONICAL_EPOCH + i` to sunrise of date `CANONICAL_EPOCH + i + 1` with
`days_since_epoch = i`, consecutive days are related by `GoodPair`, all days
satisfy the field bounds `InvD`, the last day is a holiday day at its minimum
length, and there are at least `DAYS_IN_SEASON + DAYS_IN_BLOCK = 91` days. -/
theorem canonical_ok_spec (sunrise : Int → Int) (wd : Int → Weekday)
    (events : List SolarEvent) (fuel : Nat) (days : List Day)
    (h : calc_canonical_days sunrise wd events fuel = Except.ok days) :
    days.head? = some (day_zero sunrise) ∧
    (∀ i, i < days.length →
      (days.getD i defaultDay).start = sunrise (CANONICAL_EPOCH + i) ∧
      (days.getD i defaultDay).end_ = sunrise (CANONICAL_EPOCH + i + 1) ∧
      (days.getD i defaultDay).days_since_epoch = i) ∧
    List.Chain' GoodPair days ∧
    (∀ d ∈ days, InvD d) ∧
    ((days.getLastD defaultDay).block.isHoliday = true ∧
      (days.getLastD defaultDay).day_of_block = DAYS_IN_BLOCK) ∧
    DAYS_IN_SEASON + DAYS_IN_BLOCK ≤ days.length := by
  unfold calc_canonical_days at h
  split at h
  · cases hr : calc_canonical_days_from sunrise events fuel (day_zero sunrise) CANONICAL_EPOCH with
    | error e => rw [hr] at h; cases h
    | ok l =>
      rw [hr] at h
      injection h with h
      subst h
      obtain ⟨c1, c2, c3, c4, c5⟩ := from_ok_spec sunrise events fuel (day_zero sunrise) CANONICAL_EPOCH l hr
      refine ⟨rfl, ?_, c2, c3 (invD_day_zero sunrise), c4, ?_⟩
      · intro i hi
        cases i with
        | zero =>
          simp only [List.getD_cons_zero]
          unfold day_zero end_of_canonical_day
          norm_num
        | succ i =>
          have hi' : i < l.length := by simpa using hi
          obtain ⟨a1, a2, a3⟩ := c1 i hi'
          simp only [List.getD_cons_succ]
          refine ⟨?_, ?_, ?_⟩
          · rw [a1]; congr 1; push_cast; ring
          · rw [a2]; congr 1; push_cast; ring
          · rw [a3]; simp [day_zero]; omega
      · have hm : minSteps (day_zero sunrise) = (DAYS_IN_SEASON - 1) + DAYS_IN_BLOCK := rfl
        have h84 : 1 ≤ DAYS_IN_SEASON := by norm_num [DAYS_IN_SEASON, DAYS_IN_WEEK, WEEKS_IN_SEASON]
        simp only [List.length_cons]
        omega
  · cases h

/-! ## The rebasing loop of the localizer -/

theorem getD_set_ne :
    ∀ (l : List Day) (i j : Nat) (v : Day), i ≠ j →
      (l.set i v).getD j defaultDay = l.getD j defaultDay
  | [], _, _, _, _ => rfl
  | _ :: _, 0, 0, _, h => absurd rfl h
  | _ :: _, 0, _ + 1, _, _ => rfl
  | _ :: _, _ + 1, 0, _, _ => rfl
  | _ :: l, i + 1, j + 1, v, h => getD_set_ne l i j v (by omega)

theorem getD_set_eq :
    ∀ (l : List Day) (i : Nat) (v : Day), i < l.length →
      (l.set i v).getD i defaultDay = v
  | [], i, _, h => absurd h (by simp)
  | _ :: _, 0, _, _ => rfl
  | _ :: l, i + 1, v, h => getD_set_eq l i v (by simpa using h)

theorem getD_drop :
    ∀ (l : List Day) (n i : Nat),
      (l.drop n).getD i defaultDay = l.getD (n + i) defaultDay
  | _, 0, _ => by simp
  | [], _ + 1, _ => by simp
  | a :: l, n + 1, i => by
    rw [show n + 1 + i = (n + i) + 1 by omega]
    rw [List.drop_succ_cons, List.getD_cons_succ]
    exact getD_drop l n i

theorem localizeGo_char (sunrise : Int → Int) (offset : Nat) (a0 : List Day) :
    ∀ (steps i : Nat) (a : List Day),
      a.length = a0.length →
      steps + i = a0.length - offset →
      (∀ j, j < offset → a.getD j defaultDay = a0.getD j defaultDay) →
      (∀ j, offset + i ≤ j → a.getD j defaultDay = a0.getD j defaultDay) →
      (∀ j, offset ≤ j → j < offset + i →
        a.getD j defaultDay = rebaseTarget sunrise offset a0 j) →
      (localizeGo sunrise offset steps i (CANONICAL_EPOCH + offset + i) a).length = a0.length ∧
      (∀ j, j < offset →
        (localizeGo sunrise offset steps i (CANONICAL_EPOCH + offset + i) a).getD j defaultDay =
          a0.getD j defaultDay) ∧
      (∀ j, offset + i + steps ≤ j →
        (localizeGo sunrise offset steps i (CANONICAL_EPOCH + offset + i) a).getD j defaultDay =
          a0.getD j defaultDay) ∧
      (∀ j, offset ≤ j → j < offset + i + steps →
        (localizeGo sunrise offset steps i (CANONICAL_EPOCH + offset + i) a).getD j defaultDay =
          rebaseTarget sunrise offset a0 j) := by
  intro steps
  induction steps with
  | zero =>
    intro i a ha hsum hpre hsuf hmid
    refine ⟨ha, hpre, ?_, ?_⟩
    · intro j hj; exact hsuf j (by omega)
    · intro j hj1 hj2; exact hmid j hj1 (by omega)
  | succ steps ih =>
    intro i a ha hsum hpre hsuf hmid
    have hbound : offset + i < a0.length := by omega
    have hstep : localizeGo sunrise offset (steps + 1) i (CANONICAL_EPOCH + offset + i) a =
        localizeGo sunrise offset steps (i + 1) ((CANONICAL_EPOCH + offset + i) + 1)
          (a.set (offset + i)
            (localizeBody sunrise offset i (CANONICAL_EPOCH + offset + i) a)) := rfl
    rw [hstep]
    rw [show (CANONICAL_EPOCH + (offset : Int) + (i : Int)) + 1 =
        CANONICAL_EPOCH + (offset : Int) + ((i + 1 : Nat) : Int) by push_cast; ring]
    have hd2 : localizeBody sunrise offset i (CANONICAL_EPOCH + offset + i) a =
        rebaseTarget sunrise offset a0 (offset + i) := by
      unfold localizeBody rebaseTarget
      by_cases hoff : 0 < offset
      · rw [if_pos hoff, if_pos hoff]
        have hfields : (a.getD i defaultDay).year =
              (a0.getD ((offset + i - offset) % offset) defaultDay).year ∧
            (a.getD i defaultDay).block =
              (a0.getD ((offset + i - offset) % offset) defaultDay).block ∧
            (a.getD i defaultDay).day_of_block =
              (a0.getD ((offset + i - offset) % offset) defaultDay).day_of_block := by
          rw [Nat.add_sub_cancel_left]
          rcases Nat.lt_or_ge i offset with hio | hio
          · rw [Nat.mod_eq_of_lt hio, hpre i hio]
            exact ⟨rfl, rfl, rfl⟩
          · rw [hmid i hio (by omega)]
            unfold rebaseTarget
            rw [if_pos hoff]
            have hmod : (i - offset) % offset = i % offset := by
              conv_rhs => rw [show i = (i - offset) + offset by omega]
              rw [Nat.add_mod_right]
            rw [hmod]
            exact ⟨rfl, rfl, rfl⟩
        obtain ⟨hy, hb, hd⟩ := hfields
        simp only [Day.mk.injEq]
        refine ⟨by push_cast; ring_nf, by push_cast; ring_nf, hy, hb, hd, by omega⟩
      · rw [if_neg hoff, if_neg hoff]
        have h0 : offset = 0 := by omega
        rw [hsuf (offset + i) (by omega)]
        subst h0
        simp only [Day.mk.injEq, Nat.zero_add]
        norm_num
    obtain ⟨r1, r2, r3, r4⟩ := ih (i + 1)
      (a.set (offset + i) (localizeBody sunrise offset i (CANONICAL_EPOCH + offset + i) a))
      (by rw [List.length_set]; exact ha)
      (by omega)
      (by
        intro j hj
        rw [getD_set_ne _ _ _ _ (by omega)]
        exact hpre j hj)
      (by
        intro j hj
        rw [getD_set_ne _ _ _ _ (by omega)]
        exact hsuf j (by omega))
      (by
        intro j hj1 hj2
        rcases Nat.lt_or_ge j (offset + i) with hj3 | hj3
        · rw [getD_set_ne _ _ _ _ (by omega)]
          exact hmid j hj1 hj3
        · have hj4 : j = offset + i := by omega
          subst hj4
          rw [getD_set_eq _ _ _ (by omega)]
          exact hd2)
    refine ⟨r1, r2, ?_, ?_⟩
    · intro j hj; exact r3 j (by omega)
    · intro j hj1 hj2; exact r4 j hj1 (by omega)

/-- Characterisation of the rebasing pass `localizeRebase`: the first `offset`
days are dropped, and output day `i` is `rebaseTarget` at position
`offset + i`. -/
theorem localizeRebase_char (sunrise : Int → Int) (offset : Nat) (a0 : List Day) :
    (localizeRebase sunrise offset a0).length = a0.length - offset ∧
    ∀ i, i < a0.length - offset →
      (localizeRebase sunrise offset a0).getD i defaultDay =
        rebaseTarget sunrise offset a0 (offset + i) := by
  unfold localizeRebase
  have h0 : (CANONICAL_EPOCH + (offset : Int)) = CANONICAL_EPOCH + (offset : Int) + ((0 : Nat) : Int) := by
    push_cast; ring
  rw [h0]
  obtain ⟨r1, _, _, r4⟩ := localizeGo_char sunrise offset a0 (a0.length - offset) 0 a0
    rfl (by omega)
    (fun j _ => rfl) (fun j _ => rfl) (fun j _ hj => by omega)
  constructor
  · rw [List.length_drop, r1]
  · intro i hi
    rw [getD_drop]
    exact r4 (offset + i) (by omega) (by omega)

theorem rebaseTarget_start (sunrise : Int → Int) (offset : Nat) (a0 : List Day) (j : Nat) :
    (rebaseTarget sunrise offset a0 j).start = sunrise (CANONICAL_EPOCH + j) := by
  unfold rebaseTarget; split <;> rfl

theorem rebaseTarget_end (sunrise : Int → Int) (offset : Nat) (a0 : List Day) (j : Nat) :
    (rebaseTarget sunrise offset a0 j).end_ = sunrise (CANONICAL_EPOCH + j + 1) := by
  unfold rebaseTarget; split <;> rfl

/-- Inversion of `localize`: on success the output is either the canonical
passthrough (same timezone) or - Southern hemisphere only, since the Northern
branch always raises - the rebased list for the (nonnegative) adjusted
offset. -/
theorem localize_ok_cases (sunrise : Int → Int) (wd : Int → Weekday)
    (tz northern : Bool) (days out : List Day)
    (h : localize sunrise wd tz northern days = Except.ok out) :
    (tz = true ∧ out = days) ∨
    (tz = false ∧ northern = false ∧
      ∃ ω : Nat, localizeOffsetAdjust (wd (sunrise (CANONICAL_EPOCH + 0))) = some (ω : Int) ∧
        out = localizeRebase sunrise ω days) := by
  unfold localize at h
  cases tz
  · simp only [Bool.false_eq_true, if_false] at h
    cases northern
    · simp only [Bool.false_eq_true, if_false] at h
      cases hadj : localizeOffsetAdjust (wd (sunrise (CANONICAL_EPOCH + 0))) with
      | none => rw [hadj] at h; cases h
      | some off =>
        rw [hadj] at h
        simp only [] at h
        split at h
        · split at h
          · cases h
          · injection h with h
            refine Or.inr ⟨rfl, rfl, off.toNat, ?_, h.symm⟩
            (try rw [hadj])
            congr 1
            omega
        · cases h
    · simp only [if_true] at h
      cases days <;> simp only [] at h <;> cases h
  · simp only [if_true] at h
    injection h with h
    exact Or.inl ⟨rfl, h.symm⟩

/-- Inversion of `Calendar` construction: a successful build records the
localizer's output, which is nonempty, and the epoch is its first day. -/
theorem mkCalendar_ok_spec (canonSunrise : Int → Int) (canonWd : Int → Weekday)
    (events : List SolarEvent) (fuel : Nat)
    (localSunrise : Int → Int) (localWd : Int → Weekday)
    (latitude : ℚ) (tz : Bool) (cal : Calendar)
    (h : mkCalendar canonSunrise canonWd events fuel localSunrise localWd latitude tz =
      Except.ok cal) :
    ∃ cdays, calc_canonical_days canonSunrise canonWd events fuel = Except.ok cdays ∧
      localize localSunrise localWd tz (isNorthern latitude) cdays = Except.ok cal.days ∧
      cal.days ≠ [] ∧ cal.days.head? = some cal.epoch := by
  unfold mkCalendar at h
  cases hc : calc_canonical_days canonSunrise canonWd events fuel with
  | error e => rw [hc] at h; cases h
  | ok cdays =>
    rw [hc] at h
    simp only [] at h
    cases hl : localize localSunrise localWd tz (isNorthern latitude) cdays with
    | error e => rw [hl] at h; cases h
    | ok out =>
      rw [hl] at h
      cases out with
      | nil => cases h
      | cons d rest =>
        simp only [] at h
        injection h with h
        subst h
        exact ⟨cdays, rfl, by rw [hl], by simp, by simp⟩

theorem oracleMono_strictMono (f : Int → Int) (h : OracleMono f) : StrictMono f :=
  strictMono_int_of_lt_succ h

theorem getD_eq_getElem (l : List Day) (i : Nat) (h : i < l.length) :
    l.getD i defaultDay = l[i] := by
  rw [List.getD_eq_getElem?_getD, List.getElem?_eq_getElem h]
  rfl

/-- On success, the final day list of a calendar has oracle-generated
boundaries: canonical oracle from the epoch (passthrough case), or observer
oracle from `epoch + offset` (rebased case). -/
theorem mkCalendar_boundary (canonSunrise : Int → Int) (canonWd : Int → Weekday)
    (events : List SolarEvent) (fuel : Nat)
    (localSunrise : Int → Int) (localWd : Int → Weekday)
    (latitude : ℚ) (tz : Bool) (cal : Calendar)
    (h : mkCalendar canonSunrise canonWd events fuel localSunrise localWd latitude tz =
      Except.ok cal) :
    BoundaryAt canonSunrise CANONICAL_EPOCH cal.days ∨
    ∃ ω : Nat, BoundaryAt localSunrise (CANONICAL_EPOCH + ω) cal.days := by
  obtain ⟨cdays, hc, hl, hne, hhead⟩ :=
    mkCalendar_ok_spec canonSunrise canonWd events fuel localSunrise localWd latitude tz cal h
  obtain ⟨-, hidx, -, -, -, -⟩ := canonical_ok_spec canonSunrise canonWd events fuel cdays hc
  rcases localize_ok_cases localSunrise localWd tz (isNorthern latitude) cdays cal.days hl with
    ⟨-, hout⟩ | ⟨-, -, ω, -, hout⟩
  · left
    intro i hi
    rw [hout] at hi ⊢
    exact ⟨(hidx i hi).1, (hidx i hi).2.1⟩
  · right
    refine ⟨ω, ?_⟩
    intro i hi
    obtain ⟨hlen, hchar⟩ := localizeRebase_char localSunrise ω cdays
    rw [hout] at hi ⊢
    rw [hlen] at hi
    rw [hchar i hi, rebaseTarget_start, rebaseTarget_end]
    constructor <;> (congr 1) <;> (push_cast; ring)

/-- Lemma: `find_day` returns the day at index `k` when that day matches and no
earlier day does. -/
theorem find_day_at (t : Int) :
    ∀ (days : List Day) (k : Nat), k < days.length →
      ((days.getD k defaultDay).start ≤ t ∧ t < (days.getD k defaultDay).end_) →
      (∀ j, j < k →
        ¬((days.getD j defaultDay).start ≤ t ∧ t < (days.getD j defaultDay).end_)) →
      find_day days t = some (days.getD k defaultDay)
  | [], k, hk, _, _ => absurd hk (by simp)
  | a :: l, 0, _, hsat, _ => by
    unfold find_day
    rw [List.find?_cons_of_pos]
    · rfl
    · simpa using hsat
  | a :: l, k + 1, hk, hsat, hbefore => by
    unfold find_day
    rw [List.find?_cons_of_neg]
    · exact find_day_at t l k (by simpa using hk) (by simpa using hsat)
        (fun j hj => by simpa using hbefore (j + 1) (by omega))
    · simpa using hbefore 0 (by omega)

/-- Lemma: `find_day` misses when no day matches. -/
theorem find_day_none (days : List Day) (t : Int)
    (h : ∀ d ∈ days, ¬(d.start ≤ t ∧ t < d.end_)) :
    find_day days t = none := by
  unfold find_day
  rw [List.find?_eq_none]
  intro d hd
  simpa using h d hd

/-! ## Unfolding of the generator step at a holiday boundary -/

/-- At a holiday-boundary day the generator step reduces to the solar-event
case analysis of core.py lines 148-160. -/
theorem step_boundary_eq (sunrise : Int → Int) (events : List SolarEvent)
    (day : Day) (g : Int)
    (hhol : day.block.isHoliday = true) (h7 : day.day_of_block = DAYS_IN_BLOCK) :
    calc_canonical_step sunrise events day g =
      match events.filter (inSearchWindow g) with
      | [] => StepResult.terminate
      | [solar_event] =>
        if leap_week_threshold sunrise g < solar_event.time then
          StepResult.next
            { start := sunrise g
              end_ := end_of_canonical_day sunrise g
              year := day.year
              block := day.block
              day_of_block := day.day_of_block + 1
              days_since_epoch := day.days_since_epoch + 1 }
        else
          StepResult.next
            { start := sunrise g
              end_ := end_of_canonical_day sunrise g
              year := if day.block = Block.holiday Holiday.VERNAL_EQUINOX then
                        day.year + 1
                      else day.year
              block := next_block day.block
              day_of_block := 1
              days_since_epoch := day.days_since_epoch + 1 }
      | _ => StepResult.fail GenErr.ambiguousEvents := by
  have hsat : day.weekday = Weekday.SATURDAY := weekday_at_days_in_block day h7
  unfold calc_canonical_step
  rcases hbb : day.block with s | hol
  · rw [hbb] at hhol; simp [Block.isHoliday] at hhol
  · (try rw [hbb])
    simp only []
    rw [if_pos h7, if_pos hsat]

/-- Claim C1: at a holiday-boundary day (a Holiday block at the 7-day minimum
length, hence a Saturday), when exactly one solar event lies in the ±14-day
search window of the next date `g`, the generator step inserts a leap week
(`day_of_block` incremented, block and year unchanged) **iff** the event's
instant is strictly after the leap threshold
`end_of_canonical_day (g + 2)`; otherwise it transitions to
`next_block day.block` with `day_of_block = 1`, and the transition increments
the year exactly when the outgoing block is the Winter-season holiday
(`Holiday.VERNAL_EQUINOX`, the holiday of season `FROSTFALL`). -/
theorem claim1_leap_week_iff (sunrise : Int → Int) (events : List SolarEvent)
    (day : Day) (g : Int) (hol : Holiday) (e : SolarEvent)
    (hb : day.block = Block.holiday hol)
    (h7 : day.day_of_block = DAYS_IN_BLOCK)
    (hfilter : events.filter (inSearchWindow g) = [e]) :
    day.weekday = Weekday.SATURDAY ∧
    (calc_canonical_step sunrise events day g = StepResult.next
        { start := sunrise g
          end_ := end_of_canonical_day sunrise g
          year := day.year
          block := day.block
          day_of_block := day.day_of_block + 1
          days_since_epoch := day.days_since_epoch + 1 } ↔
      leap_week_threshold sunrise g < e.time) ∧
    (¬ leap_week_threshold sunrise g < e.time →
      calc_canonical_step sunrise events day g = StepResult.next
        { start := sunrise g
          end_ := end_of_canonical_day sunrise g
          year := if day.block = Block.holiday Holiday.VERNAL_EQUINOX then
                    day.year + 1
                  else day.year
          block := next_block day.block
          day_of_block := 1
          days_since_epoch := day.days_since_epoch + 1 }) ∧
    ((if day.block = Block.holiday Holiday.VERNAL_EQUINOX then day.year + 1 else day.year) =
        day.year + 1 ↔
      day.block = Block.holiday Holiday.VERNAL_EQUINOX) := by
  have hsat : day.weekday = Weekday.SATURDAY := weekday_at_days_in_block day h7
  have hstep := step_boundary_eq sunrise events day g (by rw [hb]; rfl) h7
  rw [hfilter] at hstep
  simp only [] at hstep
  refine ⟨hsat, ?_, ?_, ?_⟩
  · by_cases hlt : leap_week_threshold sunrise g < e.time
    · rw [hstep, if_pos hlt]
      simp [hlt]
    · rw [hstep, if_neg hlt]
      simp only [hlt, iff_false]
      intro hcontra
      injection hcontra with hcontra
      have hdob : (1 : Nat) = day.day_of_block + 1 := congrArg Day.day_of_block hcontra
      have h7n : day.day_of_block = 7 := h7
      omega
  · intro hlt
    rw [hstep, if_neg hlt]
  · by_cases hv : day.block = Block.holiday Holiday.VERNAL_EQUINOX <;> simp [hv] <;> omega

/-- Witness for C1 at a concrete boundary day and event table: the single
event at instant 95 (date 95) is after the threshold
`end_of_canonical_day demoSunrise 93 = 94`, so the step inserts a leap
week. -/
theorem claim1_witness :
    demoBoundaryDay.weekday = Weekday.SATURDAY ∧
    (calc_canonical_step demoSunrise [demoLateEvent] demoBoundaryDay 91 = StepResult.next
        { start := demoSunrise 91
          end_ := end_of_canonical_day demoSunrise 91
          year := demoBoundaryDay.year
          block := demoBoundaryDay.block
          day_of_block := demoBoundaryDay.day_of_block + 1
          days_since_epoch := demoBoundaryDay.days_since_epoch + 1 } ↔
      leap_week_threshold demoSunrise 91 < demoLateEvent.time) ∧
    (¬ leap_week_threshold demoSunrise 91 < demoLateEvent.time →
      calc_canonical_step demoSunrise [demoLateEvent] demoBoundaryDay 91 = StepResult.next
        { start := demoSunrise 91
          end_ := end_of_canonical_day demoSunrise 91
          year := if demoBoundaryDay.block = Block.holiday Holiday.VERNAL_EQUINOX then
                    demoBoundaryDay.year + 1
                  else demoBoundaryDay.year
          block := next_block demoBoundaryDay.block
          day_of_block := 1
          days_since_epoch := demoBoundaryDay.days_since_epoch + 1 }) ∧
    ((if demoBoundaryDay.block = Block.holiday Holiday.VERNAL_EQUINOX then
        demoBoundaryDay.year + 1
      else demoBoundaryDay.year) = demoBoundaryDay.year + 1 ↔
      demoBoundaryDay.block = Block.holiday Holiday.VERNAL_EQUINOX) :=
  claim1_leap_week_iff demoSunrise [demoLateEvent] demoBoundaryDay 91
    Holiday.VERNAL_EQUINOX demoLateEvent rfl rfl (by decide)

/-- Claim C7: at a holiday-boundary day, the generator step terminates the
sequence cleanly **iff** zero solar events lie within ±14 calendar days of the
date `g`, and it aborts with the ambiguous-match failure whenever more than
one candidate event lies in that window. -/
theorem claim7_termination_and_ambiguity (sunrise : Int → Int)
    (events : List SolarEvent) (day : Day) (g : Int) (hol : Holiday)
    (hb : day.block = Block.holiday hol)
    (h7 : day.day_of_block = DAYS_IN_BLOCK) :
    (calc_canonical_step sunrise events day g = StepResult.terminate ↔
      events.filter (inSearchWindow g) = []) ∧
    (2 ≤ (events.filter (inSearchWindow g)).length →
      calc_canonical_step sunrise events day g = StepResult.fail GenErr.ambiguousEvents) := by
  have hstep := step_boundary_eq sunrise events day g (by rw [hb]; rfl) h7
  rcases hfl : events.filter (inSearchWindow g) with _ | ⟨e1, _ | ⟨e2, rest⟩⟩ <;>
    rw [hfl] at hstep <;> simp only [] at hstep
  · exact ⟨by rw [hstep]; simp, by intro hlen; simp at hlen⟩
  · constructor
    · rw [hstep]
      constructor
      · intro hx; split at hx <;> cases hx
      · intro hx; simp at hx
    · intro hlen; simp at hlen
  · constructor
    · rw [hstep]
      constructor
      · intro hx; cases hx
      · intro hx; simp at hx
    · intro _; rw [hstep]

/-- Witness for C7: with an empty event table the step at the concrete
boundary day terminates; with two in-window events it fails as ambiguous. -/
theorem claim7_witness :
    calc_canonical_step demoSunrise [] demoBoundaryDay 91 = StepResult.terminate ∧
    calc_canonical_step demoSunrise demoTwoEvents demoBoundaryDay 91 =
      StepResult.fail GenErr.ambiguousEvents :=
  ⟨(claim7_termination_and_ambiguity demoSunrise [] demoBoundaryDay 91
      Holiday.VERNAL_EQUINOX rfl rfl).1.mpr (by decide),
   (claim7_termination_and_ambiguity demoSunrise demoTwoEvents demoBoundaryDay 91
      Holiday.VERNAL_EQUINOX rfl rfl).2 (by decide)⟩

/-- Claim C3 (code bug): core.py's `_localize` looks for the first day with
`day.season == Season.EMBERWANE` on its Northern-hemisphere path, but this
version's `Day` has no `season` attribute (the field was folded into
`block`), so construction for any Northern observer with a non-canonical
timezone raises `AttributeError` instead of producing the two-season
phase-shifted sequence the spec describes.  First conjunct: the Northern
non-canonical path fails on every nonempty day list; second conjunct:
`Calendar` construction at the concrete failing input
(latitude 48 > 0, non-canonical timezone) aborts with that error. -/
theorem claim3_northern_attribute_error :
    (∀ (sunrise : Int → Int) (wd : Int → Weekday) (d : Day) (rest : List Day),
      localize sunrise wd false true (d :: rest) = Except.error LocErr.attributeError) ∧
    mkCalendar demoSunrise demoWd [] demoFuel demoSunrise demoWd (48 : ℚ) false =
      Except.error (CalErr.loc LocErr.attributeError) :=
  ⟨fun _ _ _ _ => rfl, rfl⟩

/-- Claim C6 counterexample: `next_block` of every Season is a Holiday (and
vice versa) - there is no Season→Season step anywhere, so the claimed
Season→Season→Season→Holiday→(next)Season cycle is false of the code; in
particular the successor of `GREENTIDE` is not a Season. -/
theorem claim6_counterexample :
    next_block (Block.season Season.GREENTIDE) = Block.holiday Holiday.SUMMER_SOLSTICE ∧
    next_block (Block.season Season.SUNCREST) = Block.holiday Holiday.AUTUMNAL_EQUINOX ∧
    next_block (Block.season Season.EMBERWANE) = Block.holiday Holiday.WINTER_SOLSTICE ∧
    next_block (Block.season Season.FROSTFALL) = Block.holiday Holiday.VERNAL_EQUINOX ∧
    (next_block (Block.season Season.GREENTIDE)).isSeason = false := by decide

/-- Claim C6 (amended): `next_block` alternates - a season's successor is its
holiday and a holiday's successor is the next season - and is an 8-cycle
through all blocks, visiting them in the order GREENTIDE, SUMMER_SOLSTICE,
SUNCREST, AUTUMNAL_EQUINOX, EMBERWANE, WINTER_SOLSTICE, FROSTFALL,
VERNAL_EQUINOX and wrapping back to GREENTIDE.  (The year wrap itself is
performed by the generator at the VERNAL_EQUINOX→GREENTIDE transition, not by
`next_block`; see C1.) -/
theorem claim6_amended :
    (∀ b : Block, b.isSeason = true → (next_block b).isHoliday = true) ∧
    (∀ b : Block, b.isHoliday = true → (next_block b).isSeason = true) ∧
    (∀ b : Block, next_block^[8] b = b) ∧
    next_block^[1] (Block.season Season.GREENTIDE) = Block.holiday Holiday.SUMMER_SOLSTICE ∧
    next_block^[2] (Block.season Season.GREENTIDE) = Block.season Season.SUNCREST ∧
    next_block^[3] (Block.season Season.GREENTIDE) = Block.holiday Holiday.AUTUMNAL_EQUINOX ∧
    next_block^[4] (Block.season Season.GREENTIDE) = Block.season Season.EMBERWANE ∧
    next_block^[5] (Block.season Season.GREENTIDE) = Block.holiday Holiday.WINTER_SOLSTICE ∧
    next_block^[6] (Block.season Season.GREENTIDE) = Block.season Season.FROSTFALL ∧
    next_block^[7] (Block.season Season.GREENTIDE) = Block.holiday Holiday.VERNAL_EQUINOX ∧
    next_block^[8] (Block.season Season.GREENTIDE) = Block.season Season.GREENTIDE := by
  refine ⟨?_, ?_, ?_, ?_⟩
  · intro b
    rcases b with s | hol
    · cases s <;> decide
    · cases hol <;> decide
  · intro b
    rcases b with s | hol
    · cases s <;> decide
    · cases hol <;> decide
  · intro b
    rcases b with s | hol
    · cases s <;> decide
    · cases hol <;> decide
  · decide

/-- Claim C9: for a Southern observer (`northern = false`) in a non-canonical
timezone whose sunrise at the canonical epoch date renders as Monday, the
`offset -= 1` correction drives the offset to `-1` and localization always
aborts with an assertion failure - the `offset >= 0` assertion when the
re-checked weekday at `epoch - 1` is Sunday (the realistic case), the Sunday
re-check assertion otherwise.  No day sequence is ever produced. -/
theorem claim9_monday_offset_assert (sunrise : Int → Int) (wd : Int → Weekday)
    (days : List Day)
    (hmon : wd (sunrise CANONICAL_EPOCH) = Weekday.MONDAY) :
    (localize sunrise wd false false days = Except.error LocErr.sundayAssert ∨
      localize sunrise wd false false days = Except.error LocErr.offsetAssert) ∧
    (wd (sunrise (CANONICAL_EPOCH + (-1 : Int))) = Weekday.SUNDAY →
      localize sunrise wd false false days = Except.error LocErr.offsetAssert) := by
  have hloc : localize sunrise wd false false days =
      (match localizeOffsetAdjust (wd (sunrise (CANONICAL_EPOCH + 0))) with
       | none => Except.error LocErr.weekdayAssert
       | some offset =>
         if wd (sunrise (CANONICAL_EPOCH + offset)) = Weekday.SUNDAY then
           if offset < 0 then Except.error LocErr.offsetAssert
           else Except.ok (localizeRebase sunrise offset.toNat days)
         else Except.error LocErr.sundayAssert) := rfl
  have hadj : localizeOffsetAdjust (wd (sunrise (CANONICAL_EPOCH + 0))) = some (-1) := by
    rw [show CANONICAL_EPOCH + (0 : Int) = CANONICAL_EPOCH by ring, hmon]
    rfl
  rw [hloc, hadj]
  simp only []
  by_cases hsun : wd (sunrise (CANONICAL_EPOCH + (-1 : Int))) = Weekday.SUNDAY
  · rw [if_pos hsun, if_pos (by omega : (-1 : Int) < 0)]
    exact ⟨Or.inr rfl, fun _ => rfl⟩
  · rw [if_neg hsun]
    exact ⟨Or.inl rfl, fun hs => absurd hs hsun⟩

/-- Witness for C9 at concrete inputs: the Monday-rendering observer weekday
function; the localizer aborts with the `offset >= 0` assertion. -/
theorem claim9_witness :
    (localize demoSunrise demoMondayWd false false demoCanonicalDays =
        Except.error LocErr.sundayAssert ∨
      localize demoSunrise demoMondayWd false false demoCanonicalDays =
        Except.error LocErr.offsetAssert) ∧
    (demoMondayWd (demoSunrise (CANONICAL_EPOCH + (-1 : Int))) = Weekday.SUNDAY →
      localize demoSunrise demoMondayWd false false demoCanonicalDays =
        Except.error LocErr.offsetAssert) :=
  claim9_monday_offset_assert demoSunrise demoMondayWd demoCanonicalDays (by decide)

/-- Claim C4: in every successfully generated canonical sequence the blocks
are exactly sized: `day_of_block` is 1-based and bounded (`InvD`), each
adjacent pair follows the `GoodPair` step relation - a season block only ends
at `day_of_block = DAYS_IN_SEASON = 84` and a holiday block only ends at
`DAYS_IN_BLOCK = 7` or `DAYS_IN_LEAP_BLOCK = 14`, with the single optional
leap-week extension taken at 7 - the sequence starts at day 1 of the first
season, and it ends at a holiday day at exactly the 7-day minimum.  Together
these force every season block to span exactly 84 days (day_of_block running
1..84) and every completed holiday block to span exactly 7 or 14 days. -/
theorem claim4_block_structure (sunrise : Int → Int) (wd : Int → Weekday)
    (events : List SolarEvent) (fuel : Nat) (days : List Day)
    (h : calc_canonical_days sunrise wd events fuel = Except.ok days) :
    (∀ d ∈ days, InvD d) ∧
    List.Chain' GoodPair days ∧
    days.head? = some (day_zero sunrise) ∧
    ((days.getLastD defaultDay).block.isHoliday = true ∧
      (days.getLastD defaultDay).day_of_block = DAYS_IN_BLOCK) := by
  obtain ⟨h1, _, h3, h4, h5, _⟩ := canonical_ok_spec sunrise wd events fuel days h
  exact ⟨h4, h3, h1, h5⟩

/-- Witness for C4: the concrete 91-day canonical run. -/
theorem claim4_witness :
    (∀ d ∈ demoCanonicalDays, InvD d) ∧
    List.Chain' GoodPair demoCanonicalDays ∧
    demoCanonicalDays.head? = some (day_zero demoSunrise) ∧
    ((demoCanonicalDays.getLastD defaultDay).block.isHoliday = true ∧
      (demoCanonicalDays.getLastD defaultDay).day_of_block = DAYS_IN_BLOCK) :=
  claim4_block_structure demoSunrise demoWd [] demoFuel demoCanonicalDays rfl

/-- Claim C10: the canonical generator cannot terminate before a full first
season (84 days) plus the minimum first holiday (7 days) have been yielded,
so a successful generation has at least 91 days; and whenever `Calendar`
construction succeeds, the final day sequence is nonempty with the `epoch`
field equal to its first day. -/
theorem claim10_min_length (canonSunrise : Int → Int) (canonWd : Int → Weekday)
    (events : List SolarEvent) (fuel : Nat)
    (localSunrise : Int → Int) (localWd : Int → Weekday)
    (latitude : ℚ) (tz : Bool) :
    (∀ days, calc_canonical_days canonSunrise canonWd events fuel = Except.ok days →
      DAYS_IN_SEASON + DAYS_IN_BLOCK ≤ days.length) ∧
    (∀ cal, mkCalendar canonSunrise canonWd events fuel localSunrise localWd latitude tz =
        Except.ok cal →
      cal.days ≠ [] ∧ cal.days.head? = some cal.epoch) := by
  constructor
  · intro days h
    exact (canonical_ok_spec canonSunrise canonWd events fuel days h).2.2.2.2.2
  · intro cal h
    obtain ⟨-, -, -, hne, hhead⟩ :=
      mkCalendar_ok_spec canonSunrise canonWd events fuel localSunrise localWd latitude tz cal h
    exact ⟨hne, hhead⟩

/-- Witness for C10 at the concrete inputs. -/
theorem claim10_witness :
    DAYS_IN_SEASON + DAYS_IN_BLOCK ≤ demoCanonicalDays.length ∧
    (demoCal.days ≠ [] ∧ demoCal.days.head? = some demoCal.epoch) :=
  ⟨(claim10_min_length demoSunrise demoWd [] demoFuel demoSunrise demoWd (-33) true).1
      demoCanonicalDays rfl,
   (claim10_min_length demoSunrise demoWd [] demoFuel demoSunrise demoWd (-33) true).2
      demoCal rfl⟩

/-- Oracle-generated boundaries make consecutive days abut. -/
theorem boundaryAt_chain (f : Int → Int) (base : Int) (days : List Day)
    (hb : BoundaryAt f base days) :
    List.Chain' (fun a b => a.end_ = b.start) days := by
  rw [List.chain'_iff_get]
  intro i hi
  have h1 := (hb i (by omega)).2
  have h2 := (hb (i + 1) (by omega)).1
  rw [List.get_eq_getElem, List.get_eq_getElem,
    ← getD_eq_getElem days i (by omega), ← getD_eq_getElem days (i + 1) (by omega)]
  rw [h1, h2]
  congr 1
  push_cast
  ring

/-- Oracle-generated boundaries plus oracle monotonicity make every day's
interval nonempty. -/
theorem boundaryAt_pos (f : Int → Int) (base : Int) (days : List Day)
    (hmono : OracleMono f) (hb : BoundaryAt f base days) :
    ∀ d ∈ days, d.start < d.end_ := by
  intro d hd
  obtain ⟨i, hi, rfl⟩ := List.mem_iff_getElem.mp hd
  rw [← getD_eq_getElem days i hi]
  obtain ⟨h1, h2⟩ := hb i hi
  rw [h1, h2]
  exact hmono _

/-- Claim C5: in every final (post-localization) day sequence of a
successfully constructed calendar, adjacent days abut exactly
(`day[i].end = day[i+1].start`), and - the sunrise oracles being strictly
monotonic in the date, as the spec requires of the external `SunriseOracle` -
every day's half-open interval is nonempty (`start < end`). -/
theorem claim5_contiguity (canonSunrise : Int → Int) (canonWd : Int → Weekday)
    (events : List SolarEvent) (fuel : Nat)
    (localSunrise : Int → Int) (localWd : Int → Weekday)
    (latitude : ℚ) (tz : Bool) (cal : Calendar)
    (hmc : OracleMono canonSunrise) (hml : OracleMono localSunrise)
    (h : mkCalendar canonSunrise canonWd events fuel localSunrise localWd latitude tz =
      Except.ok cal) :
    List.Chain' (fun a b => a.end_ = b.start) cal.days ∧
    ∀ d ∈ cal.days, d.start < d.end_ := by
  rcases mkCalendar_boundary canonSunrise canonWd events fuel localSunrise localWd
      latitude tz cal h with hbo | ⟨ω, hbo⟩
  · exact ⟨boundaryAt_chain _ _ _ hbo, boundaryAt_pos _ _ _ hmc hbo⟩
  · exact ⟨boundaryAt_chain _ _ _ hbo, boundaryAt_pos _ _ _ hml hbo⟩

/-- The demo oracle is strictly monotone. -/
theorem demoSunrise_mono : OracleMono demoSunrise := by
  intro d
  unfold demoSunrise
  omega

/-- Witness for C5: the concrete canonical-timezone calendar. -/
theorem claim5_witness :
    List.Chain' (fun a b => a.end_ = b.start) demoCal.days ∧
    ∀ d ∈ demoCal.days, d.start < d.end_ :=
  claim5_contiguity demoSunrise demoWd [] demoFuel demoSunrise demoWd (-33) true demoCal
    demoSunrise_mono demoSunrise_mono rfl

/-- Behaviour of `find_day` on a day list with oracle-generated, strictly monotone
boundaries: the unique enclosing day is found, `start` maps to the day
itself, `end` maps to the next day, and instants before the first start or at
or past the last end yield `none`. -/
theorem boundary_find_day (f : Int → Int) (base : Int) (days : List Day)
    (hmono : OracleMono f) (hb : BoundaryAt f base days) :
    (∀ d ∈ days, ∀ t : Int, d.start ≤ t → t < d.end_ → find_day days t = some d) ∧
    (∀ d ∈ days, find_day days d.start = some d) ∧
    (∀ i, i + 1 < days.length →
      find_day days ((days.getD i defaultDay).end_) = some (days.getD (i + 1) defaultDay)) ∧
    (∀ d0, days.head? = some d0 → ∀ t : Int, t < d0.start → find_day days t = none) ∧
    (∀ dl, days.getLast? = some dl → ∀ t : Int, dl.end_ ≤ t → find_day days t = none) := by
  have hsm := oracleMono_strictMono f hmono
  have hcore : ∀ (k : Nat), k < days.length → ∀ t : Int,
      (days.getD k defaultDay).start ≤ t → t < (days.getD k defaultDay).end_ →
      find_day days t = some (days.getD k defaultDay) := by
    intro k hk t ht1 ht2
    refine find_day_at t days k hk ⟨ht1, ht2⟩ ?_
    intro j hj hcon
    have hjlt : j < days.length := by omega
    have hend := (hb j hjlt).2
    have hstart := (hb k hk).1
    have hle : f (base + j + 1) ≤ f (base + k) := by
      apply hsm.monotone
      push_cast
      omega
    rw [hend] at hcon
    rw [hstart] at ht1
    omega
  refine ⟨?_, ?_, ?_, ?_, ?_⟩
  · intro d hd t ht1 ht2
    obtain ⟨k, hk, rfl⟩ := List.mem_iff_getElem.mp hd
    rw [← getD_eq_getElem days k hk] at ht1 ht2 ⊢
    exact hcore k hk t ht1 ht2
  · intro d hd
    obtain ⟨k, hk, rfl⟩ := List.mem_iff_getElem.mp hd
    rw [← getD_eq_getElem days k hk]
    refine hcore k hk _ le_rfl ?_
    rw [(hb k hk).1, (hb k hk).2]
    exact hmono _
  · intro i hi
    refine hcore (i + 1) hi _ ?_ ?_
    · rw [(hb i (by omega)).2, (hb (i + 1) hi).1]
      apply le_of_eq
      congr 1
      push_cast
      ring
    · rw [(hb i (by omega)).2, (hb (i + 1) hi).2]
      calc f (base + (i : Int) + 1) < f (base + (i : Int) + 1 + 1) := hmono _
        _ = f (base + ((i + 1 : Nat) : Int) + 1) := by congr 1; push_cast; ring
  · intro d0 h0 t ht
    have hlen0 : 0 < days.length := by
      cases days with
      | nil => cases h0
      | cons a l => simp
    have h00 : days.getD 0 defaultDay = d0 := by
      cases days with
      | nil => cases h0
      | cons a l =>
        injection h0 with h0
    apply find_day_none
    intro d hd hcon
    obtain ⟨k, hk, rfl⟩ := List.mem_iff_getElem.mp hd
    rw [← getD_eq_getElem days k hk] at hcon
    have hks := (hb k hk).1
    have h0s := (hb 0 hlen0).1
    rw [h00] at h0s
    have hle : f (base + (0 : Nat)) ≤ f (base + k) := by
      apply hsm.monotone
      push_cast
      omega
    rw [hks] at hcon
    rw [h0s] at ht
    omega
  · intro dl hl t ht
    have hlen0 : 0 < days.length := by
      cases days with
      | nil => cases hl
      | cons a l => simp
    have hdl : days.getD (days.length - 1) defaultDay = dl := by
      rw [List.getLast?_eq_getElem?] at hl
      rw [List.getD_eq_getElem?_getD, hl]
      rfl
    apply find_day_none
    intro d hd hcon
    obtain ⟨k, hk, rfl⟩ := List.mem_iff_getElem.mp hd
    rw [← getD_eq_getElem days k hk] at hcon
    have hke := (hb k hk).2
    have hle2 := (hb (days.length - 1) (by omega)).2
    rw [hdl] at hle2
    have hle : f (base + k + 1) ≤ f (base + (days.length - 1 : Nat) + 1) := by
      apply hsm.monotone
      push_cast
      omega
    rw [hke] at hcon
    rw [hle2] at ht
    omega

/-- Claim C8: in every successfully constructed calendar (with strictly
monotone sunrise oracles), `find_day` returns the unique day enclosing any
instant in `[start, end)`; in particular `d.start` maps to `d`, `d.end` maps
to the next day when one exists (half-open intervals), and any instant before
the first day's start or at or past the last day's end yields `none` rather
than an error. -/
theorem claim8_find_day (canonSunrise : Int → Int) (canonWd : Int → Weekday)
    (events : List SolarEvent) (fuel : Nat)
    (localSunrise : Int → Int) (localWd : Int → Weekday)
    (latitude : ℚ) (tz : Bool) (cal : Calendar)
    (hmc : OracleMono canonSunrise) (hml : OracleMono localSunrise)
    (h : mkCalendar canonSunrise canonWd events fuel localSunrise localWd latitude tz =
      Except.ok cal) :
    (∀ d ∈ cal.days, ∀ t : Int, d.start ≤ t → t < d.end_ →
      find_day cal.days t = some d) ∧
    (∀ d ∈ cal.days, find_day cal.days d.start = some d) ∧
    (∀ i, i + 1 < cal.days.length →
      find_day cal.days ((cal.days.getD i defaultDay).end_) =
        some (cal.days.getD (i + 1) defaultDay)) ∧
    (∀ d0, cal.days.head? = some d0 → ∀ t : Int, t < d0.start →
      find_day cal.days t = none) ∧
    (∀ dl, cal.days.getLast? = some dl → ∀ t : Int, dl.end_ ≤ t →
      find_day cal.days t = none) := by
  rcases mkCalendar_boundary canonSunrise canonWd events fuel localSunrise localWd
      latitude tz cal h with hbo | ⟨ω, hbo⟩
  · exact boundary_find_day canonSunrise CANONICAL_EPOCH cal.days hmc hbo
  · exact boundary_find_day localSunrise (CANONICAL_EPOCH + ω) cal.days hml hbo

/-- Witness for C8: the concrete canonical-timezone calendar. -/
theorem claim8_witness :
    (∀ d ∈ demoCal.days, ∀ t : Int, d.start ≤ t → t < d.end_ →
      find_day demoCal.days t = some d) ∧
    (∀ d ∈ demoCal.days, find_day demoCal.days d.start = some d) ∧
    (∀ i, i + 1 < demoCal.days.length →
      find_day demoCal.days ((demoCal.days.getD i defaultDay).end_) =
        some (demoCal.days.getD (i + 1) defaultDay)) ∧
    (∀ d0, demoCal.days.head? = some d0 → ∀ t : Int, t < d0.start →
      find_day demoCal.days t = none) ∧
    (∀ dl, demoCal.days.getLast? = some dl → ∀ t : Int, dl.end_ ≤ t →
      find_day demoCal.days t = none) :=
  claim8_find_day demoSunrise demoWd [] demoFuel demoSunrise demoWd (-33) true demoCal
    demoSunrise_mono demoSunrise_mono rfl

/-- Claim C2 counterexample: for the concrete Southern observer in a
non-canonical timezone whose sunrise at the epoch date renders as Saturday,
the adjusted offset is 1, and the localized sequence's day 0 carries
`day_of_block = 1` - the fields of canonical day 0 (copied in place from
`days[0]`) - whereas the claim says it takes its fields from canonical day
`offset + 0 = 1`, whose `day_of_block` is 2. -/
theorem claim2_counterexample :
    localizeOffsetAdjust (demoSaturdayWd (demoSunrise (CANONICAL_EPOCH + 0))) = some 1 ∧
    (demoShiftCal.days.getD 0 defaultDay).day_of_block = 1 ∧
    (demoCanonicalDays.getD 1 defaultDay).day_of_block = 2 ∧
    (demoShiftCal.days.getD 0 defaultDay).day_of_block ≠
      (demoCanonicalDays.getD 1 defaultDay).day_of_block := by
  refine ⟨rfl, ?_, ?_, ?_⟩ <;> decide

/-- Claim C2 (amended): for a Southern observer in a non-canonical timezone,
a successful localization returns `localizeRebase` at the (nonnegative)
adjusted offset `ω`; and the rebased sequence's day `i` takes its boundaries
from the observer's sunrise oracle at dates `CANONICAL_EPOCH + ω + i` and
`... + i + 1`, has `days_since_epoch` reset to `i` (when `ω > 0`), drops the
first `ω` canonical days - but takes its `(year, block, day_of_block)` from
the in-place-rewritten `days[i]`, which equals the **original canonical day
at index `i % ω`** when `ω > 0` (not index `ω + i` as the claim stated), and
keeps canonical day `i`'s fields unchanged when `ω = 0`. -/
theorem claim2_amended :
    (∀ (sunrise : Int → Int) (wd : Int → Weekday) (days out : List Day),
      localize sunrise wd false false days = Except.ok out →
      ∃ ω : Nat, localizeOffsetAdjust (wd (sunrise (CANONICAL_EPOCH + 0))) = some (ω : Int) ∧
        out = localizeRebase sunrise ω days) ∧
    (∀ (sunrise : Int → Int) (ω : Nat) (days : List Day),
      (localizeRebase sunrise ω days).length = days.length - ω ∧
      (∀ i, i < days.length - ω →
        ((localizeRebase sunrise ω days).getD i defaultDay).start =
          sunrise (CANONICAL_EPOCH + ω + i) ∧
        ((localizeRebase sunrise ω days).getD i defaultDay).end_ =
          sunrise (CANONICAL_EPOCH + ω + i + 1) ∧
        (0 < ω →
          ((localizeRebase sunrise ω days).getD i defaultDay).days_since_epoch = i ∧
          ((localizeRebase sunrise ω days).getD i defaultDay).year =
            (days.getD (i % ω) defaultDay).year ∧
          ((localizeRebase sunrise ω days).getD i defaultDay).block =
            (days.getD (i % ω) defaultDay).block ∧
          ((localizeRebase sunrise ω days).getD i defaultDay).day_of_block =
            (days.getD (i % ω) defaultDay).day_of_block) ∧
        (ω = 0 →
          (localizeRebase sunrise ω days).getD i defaultDay =
            { days.getD i defaultDay with
                start := sunrise (CANONICAL_EPOCH + i)
                end_ := sunrise (CANONICAL_EPOCH + i + 1) }))) := by
  constructor
  · intro sunrise wd days out h
    rcases localize_ok_cases sunrise wd false false days out h with ⟨hcon, -⟩ | ⟨-, -, hrest⟩
    · cases hcon
    · exact hrest
  · intro sunrise ω days
    obtain ⟨hlen, hchar⟩ := localizeRebase_char sunrise ω days
    refine ⟨hlen, ?_⟩
    intro i hi
    rw [hchar i hi]
    refine ⟨?_, ?_, ?_, ?_⟩
    · rw [rebaseTarget_start]
      congr 1
      push_cast
      ring
    · rw [rebaseTarget_end]
      congr 1
      push_cast
      ring
    · intro hω
      unfold rebaseTarget
      rw [if_pos hω, Nat.add_sub_cancel_left]
      exact ⟨rfl, rfl, rfl, rfl⟩
    · intro hω
      subst hω
      unfold rebaseTarget
      rw [if_neg (by omega)]
      simp only [Nat.zero_add]

/-- Witness for C2 (amended): concrete three-day list, Saturday-shifted
observer (`ω = 1`); the rebased day 1 takes its `year` from canonical day
`1 % 1 = 0`. -/
theorem claim2_witness :
    (∃ ω : Nat,
      localizeOffsetAdjust (demoSaturdayWd (demoSunrise (CANONICAL_EPOCH + 0))) =
        some (ω : Int) ∧
      demoRebased3 = localizeRebase demoSunrise ω threeDays) ∧
    (localizeRebase demoSunrise 1 threeDays).length = threeDays.length - 1 ∧
    ((localizeRebase demoSunrise 1 threeDays).getD 1 defaultDay).day_of_block =
      (threeDays.getD (1 % 1) defaultDay).day_of_block := by
  refine ⟨claim2_amended.1 demoSunrise demoSaturdayWd threeDays demoRebased3 rfl, ?_, ?_⟩
  · exact (claim2_amended.2 demoSunrise 1 threeDays).1
  · exact ((((claim2_amended.2 demoSunrise 1 threeDays).2 1 (by decide)).2.2.1
      (by decide)).2.2.2)

end CubicCalendar
